import Mathlib

/-!
Verification of `save-memory.py`: a script whose function `save_memory`
builds a JSON payload from a memory string and a tags list, then probes a
fixed list of six loopback HTTP endpoints in order, returning `True` on the
first response with status code 200 and `False` otherwise.

The embedding models each endpoint attempt by an environment
`env : Nat → PostResult` giving the outcome of the i-th `requests.post`
call: a completed response (status and body), a raised
`requests.exceptions.RequestException`, or any other raised exception.
The prober's observable behaviour is the returned boolean, the list of
requests issued and the list of lines printed to standard output.
-/

namespace SaveMemory

/-- A minimal JSON document model: the wire format of the request body. -/
inductive Json where
  | null
  | str (s : String)
  | num (n : Int)
  | arr (xs : List Json)
  | obj (fields : List (String × Json))

/-- Field lookup in a JSON object (first binding wins, as in a dict). -/
def Json.lookupField : Json → String → Option Json
  | Json.obj fields, key => fields.lookup key
  | _, _ => none

/-- Resolution of the optional `tags` argument: `if tags is None: tags = []`. -/
def resolveTags : Option (List String) → List String
  | none => []
  | some t => t

/-- The payload dict built by `save_memory`:
`{"memory": memory_text, "tags": tags}`. -/
def payloadJson (memory_text : String) (tags : List String) : Json :=
  Json.obj [("memory", Json.str memory_text), ("tags", Json.arr (tags.map Json.str))]

/-- Decoding of a JSON array of strings. -/
def decodeStrings : List Json → Option (List String)
  | [] => some []
  | Json.str s :: rest => (decodeStrings rest).map (fun ss => s :: ss)
  | _ => none

/-- Modelled from the spec: the deserializer for the wire format is not part
of the source (it lives in the remote server / json library); following the
spec's description of the body as a JSON-compatible document with exactly the
two top-level fields `memory` (string) and `tags` (array of strings). -/
def decodePayload (j : Json) : Option (String × List String) :=
  match Json.lookupField j "memory" with
  | some (Json.str m) =>
    match Json.lookupField j "tags" with
    | some (Json.arr xs) => (decodeStrings xs).map (fun tags => (m, tags))
    | _ => none
  | _ => none

/-- Outcome of one `requests.post` call, chosen by the environment. -/
inductive PostResult where
  | resp (status : Nat) (body : String)
  | reqExc (msg : String)
  | exc (msg : String)
deriving DecidableEq

/-- One HTTP request as issued by the loop:
`requests.post(endpoint, json=payload, timeout=5)`. -/
structure Request where
  method : String
  url : String
  body : Json
  timeout : Nat

/-- A line printed to standard output. -/
inductive OutLine where
  | trying (endpoint : String)
  | savedVia (endpoint : String)
  | responseBody (body : String)
  | errorWith (endpoint : String) (msg : String)
  | failedAll
  | outerError (msg : String)
deriving DecidableEq

/-- Result of the `for endpoint in endpoints` loop: returned `True`,
fell through the loop, or an exception not caught by the inner
`except requests.exceptions.RequestException` escaped the loop. -/
inductive LoopResult where
  | success (endpoint : String) (body : String)
  | exhausted
  | raised (msg : String)
deriving DecidableEq

/-- The request issued for one endpoint. -/
def mkRequest (endpoint : String) (body : Json) : Request :=
  ⟨"POST", endpoint, body, 5⟩

/-- The `for endpoint in endpoints` loop of `save_memory`, started at attempt
index `i`.  Each iteration prints the `Trying endpoint` line, issues the POST,
and then: on status 200 prints the success lines and returns; on any other
status silently continues; on a `RequestException` prints the `Error with`
line and continues; on any other exception the loop is aborted with that
exception propagating (to be caught by the outer handler). -/
def tryEndpoints (env : Nat → PostResult) (body : Json) :
    List String → Nat → LoopResult × List Request × List OutLine
  | [], _ => (LoopResult.exhausted, [], [])
  | e :: rest, i =>
    match env i with
    | PostResult.resp status respBody =>
      if status = 200 then
        (LoopResult.success e respBody, [mkRequest e body],
         [OutLine.trying e, OutLine.savedVia e, OutLine.responseBody respBody])
      else
        ((tryEndpoints env body rest (i+1)).1,
         mkRequest e body :: (tryEndpoints env body rest (i+1)).2.1,
         OutLine.trying e :: (tryEndpoints env body rest (i+1)).2.2)
    | PostResult.reqExc msg =>
      ((tryEndpoints env body rest (i+1)).1,
       mkRequest e body :: (tryEndpoints env body rest (i+1)).2.1,
       OutLine.trying e :: OutLine.errorWith e msg :: (tryEndpoints env body rest (i+1)).2.2)
    | PostResult.exc msg =>
      (LoopResult.raised msg, [mkRequest e body], [OutLine.trying e])

/-- The hardcoded endpoint list of `save_memory`, in source order. -/
def endpoints : List String :=
  ["http://localhost:8050/api/save_memory",
   "http://localhost:8051/api/save_memory",
   "http://localhost:8050/sse/save_memory",
   "http://localhost:8051/sse/save_memory",
   "http://localhost:8050/mem0/save_memory",
   "http://localhost:8051/mem0/save_memory"]

/-- The body of the outer `try` of `save_memory`, over an arbitrary endpoint
list: an `Except.error` is an exception that would propagate out of the loop
(the carried data are the message, the requests issued and the output printed
before the raise). -/
def save_memory_raw (eps : List String) (env : Nat → PostResult)
    (memory_text : String) (tags : Option (List String)) :
    Except (String × List Request × List OutLine) (Bool × List Request × List OutLine) :=
  match tryEndpoints env (payloadJson memory_text (resolveTags tags)) eps 0 with
  | (LoopResult.success _ _, reqs, out) => Except.ok (true, reqs, out)
  | (LoopResult.exhausted, reqs, out) =>
    Except.ok (false, reqs, out ++ [OutLine.failedAll])
  | (LoopResult.raised msg, reqs, out) => Except.error (msg, reqs, out)

/-- `save_memory` with the endpoint list as a parameter: the outer
`except Exception` handler prints the `Error:` line and returns `False` for
an escaped exception.  The result carries the returned boolean, the requests
issued and the standard-output trace; its type has no exceptional outcome. -/
def save_memory_with (eps : List String) (env : Nat → PostResult)
    (memory_text : String) (tags : Option (List String)) :
    Bool × List Request × List OutLine :=
  match save_memory_raw eps env memory_text tags with
  | Except.ok r => r
  | Except.error (msg, reqs, out) => (false, reqs, out ++ [OutLine.outerError msg])

/-- `save_memory` as in the source: the fixed six-endpoint list. -/
def save_memory (env : Nat → PostResult) (memory_text : String)
    (tags : Option (List String)) : Bool × List Request × List OutLine :=
  save_memory_with endpoints env memory_text tags

/-- An attempt that fails the way an endpoint can: a completed response with
a status other than 200, or a raised `RequestException`. -/
def failsNormally : PostResult → Bool
  | PostResult.resp status _ => if status = 200 then false else true
  | PostResult.reqExc _ => true
  | PostResult.exc _ => false

/-- The attempt succeeded in the source's sense: status code exactly 200. -/
def isSuccess : PostResult → Bool
  | PostResult.resp status _ => if status = 200 then true else false
  | _ => false

/-- The attempt raised a `requests.exceptions.RequestException`. -/
def isReqExc : PostResult → Bool
  | PostResult.reqExc _ => true
  | _ => false

/-- A printed line that records a per-endpoint failure (`Error with ...`). -/
def isErrorRecord : OutLine → Bool
  | OutLine.errorWith _ _ => true
  | _ => false

/-- The URLs of a list of requests. -/
def requestUrls (reqs : List Request) : List String := reqs.map Request.url

/-- The output printed by a run of the loop in which every listed attempt
fails normally (non-200 response or `RequestException`). -/
def allFailOut (env : Nat → PostResult) : List String → Nat → List OutLine
  | [], _ => []
  | e :: rest, i =>
    (match env i with
     | PostResult.reqExc msg => [OutLine.trying e, OutLine.errorWith e msg]
     | _ => [OutLine.trying e]) ++ allFailOut env rest (i+1)

/-- The outcomes the environment assigns to the attempts of a list. -/
def attemptOutcomes (env : Nat → PostResult) : List String → Nat → List PostResult
  | [], _ => []
  | _ :: rest, i => env i :: attemptOutcomes env rest (i+1)

/-- Modelled from the spec: the conventional success ("OK") class of HTTP
status codes, as the spec's words describe it. -/
def specOkClass (status : Nat) : Bool :=
  decide (200 ≤ status) && decide (status < 300)

/-- The two ports of the spec's endpoint description. -/
def ports : List Nat := [8050, 8051]

/-- The three path forms of the spec's endpoint description. -/
def pathForms : List String :=
  ["/api/save_memory", "/sse/save_memory", "/mem0/save_memory"]

/-- The six loopback URLs obtained by combining the path forms with the two
ports, in the order the source lists them. -/
def comboEndpoints : List String :=
  pathForms.flatMap (fun p => ports.map (fun q => "http://localhost:" ++ toString q ++ p))

/-- The program state visible to `save_memory`: its two arguments and the
standard-output channel. -/
structure ProgState where
  memoryText : String
  tagsArg : Option (List String)
  stdout : List OutLine

/-- `save_memory` as a state transformer on the visible program state: the
source contains no assignment to either argument (the `tags = []` rebinding
is a fresh local), and its only effect is printing. -/
def save_memory_st (env : Nat → PostResult) (s : ProgState) : ProgState × Bool :=
  (⟨s.memoryText, s.tagsArg,
    s.stdout ++ (save_memory env s.memoryText s.tagsArg).2.2⟩,
   (save_memory env s.memoryText s.tagsArg).1)

lemma take_succ_of_lt {α : Type} (l : List α) (k : Nat) (h : k < l.length) :
    l.take (k+1) = l.take k ++ [l.get ⟨k, h⟩] := by
  induction l generalizing k with
  | nil => exact absurd h (Nat.not_lt_zero k)
  | cons a l ih =>
    cases k with
    | zero => rfl
    | succ k =>
      have hk : k < l.length := Nat.lt_of_succ_lt_succ h
      rw [List.take_succ_cons, List.take_succ_cons, ih k hk, List.cons_append]
      rfl

lemma drop_eq_get_cons {α : Type} (l : List α) (k : Nat) (h : k < l.length) :
    l.drop k = l.get ⟨k, h⟩ :: l.drop (k+1) := by
  induction l generalizing k with
  | nil => exact absurd h (Nat.not_lt_zero k)
  | cons a l ih =>
    cases k with
    | zero => rfl
    | succ k =>
      have hk : k < l.length := Nat.lt_of_succ_lt_succ h
      exact ih k hk

lemma requestUrls_map (body : Json) (l : List String) :
    requestUrls (l.map (fun e => mkRequest e body)) = l := by
  induction l with
  | nil => rfl
  | cons e rest ih =>
    simpa [requestUrls, mkRequest] using congrArg (List.cons e) ih

lemma failsNormally_resp_ne {status : Nat} {b : String}
    (h : failsNormally (PostResult.resp status b) = true) : status ≠ 200 := by
  intro hs
  subst hs
  simp [failsNormally] at h

/-- The loop, after `k` normally failing attempts, behaves as the loop on the
remaining endpoints, with the first `k` requests and failure output
prepended. -/
lemma tryEndpoints_fail_through (env : Nat → PostResult) (body : Json) :
    ∀ (k : Nat) (eps : List String) (i : Nat), k ≤ eps.length →
    (∀ j, j < k → failsNormally (env (i + j)) = true) →
    tryEndpoints env body eps i =
      ((tryEndpoints env body (eps.drop k) (i + k)).1,
       (eps.take k).map (fun e => mkRequest e body) ++
         (tryEndpoints env body (eps.drop k) (i + k)).2.1,
       allFailOut env (eps.take k) i ++
         (tryEndpoints env body (eps.drop k) (i + k)).2.2) := by
  intro k
  induction k with
  | zero =>
    intro eps i _ _
    simp only [List.take_zero, List.drop_zero, Nat.add_zero, List.map_nil,
      List.nil_append, allFailOut]
  | succ k ih =>
    intro eps i hk hb
    cases eps with
    | nil => exact absurd hk (Nat.not_succ_le_zero k)
    | cons e rest =>
      have h0 : failsNormally (env i) = true := by
        simpa using hb 0 (Nat.succ_pos k)
      have hk' : k ≤ rest.length := Nat.le_of_succ_le_succ hk
      have hb' : ∀ j, j < k → failsNormally (env (i + 1 + j)) = true := by
        intro j hj
        have := hb (j+1) (Nat.succ_lt_succ hj)
        simpa [show i + (j+1) = i + 1 + j by omega] using this
      have hrec := ih rest (i+1) hk' hb'
      have hidx : i + 1 + k = i + (k + 1) := by omega
      cases henv : env i with
      | resp status b =>
        have hs : ¬ status = 200 := failsNormally_resp_ne (henv ▸ h0)
        simp only [tryEndpoints, henv, if_neg hs, hrec, List.take, List.drop,
          allFailOut, hidx]
        simp
      | reqExc msg =>
        simp only [tryEndpoints, henv, hrec, List.take, List.drop, allFailOut,
          hidx]
        simp
      | exc msg =>
        rw [henv] at h0
        simp [failsNormally] at h0

/-- One successful attempt at the head of the remaining list. -/
lemma tryEndpoints_success_head (env : Nat → PostResult) (body : Json)
    (e : String) (rest : List String) (i : Nat) (rb : String)
    (henv : env i = PostResult.resp 200 rb) :
    tryEndpoints env body (e :: rest) i =
      (LoopResult.success e rb, [mkRequest e body],
       [OutLine.trying e, OutLine.savedVia e, OutLine.responseBody rb]) := by
  simp [tryEndpoints, henv]

/-- A run whose first `k` attempts fail normally and whose attempt `k`
completes with status 200: full characterization of the result. -/
lemma save_memory_success_run (eps : List String) (env : Nat → PostResult)
    (m : String) (t : Option (List String)) (k : Nat) (hk : k < eps.length)
    (hb : ∀ j, j < k → failsNormally (env j) = true) (rb : String)
    (hr : env k = PostResult.resp 200 rb) :
    save_memory_with eps env m t =
      (true,
       (eps.take (k+1)).map (fun e => mkRequest e (payloadJson m (resolveTags t))),
       allFailOut env (eps.take k) 0 ++
         [OutLine.trying (eps.get ⟨k, hk⟩), OutLine.savedVia (eps.get ⟨k, hk⟩),
          OutLine.responseBody rb]) := by
  have hpre := tryEndpoints_fail_through env (payloadJson m (resolveTags t)) k eps 0
    (Nat.le_of_lt hk) (fun j hj => by simpa using hb j hj)
  rw [drop_eq_get_cons eps k hk] at hpre
  rw [tryEndpoints_success_head env (payloadJson m (resolveTags t))
    (eps.get ⟨k, hk⟩) (eps.drop (k+1)) (0 + k) rb (by simpa using hr)] at hpre
  have htake : (eps.take (k+1)).map (fun e => mkRequest e (payloadJson m (resolveTags t))) =
      (eps.take k).map (fun e => mkRequest e (payloadJson m (resolveTags t))) ++
        [mkRequest (eps.get ⟨k, hk⟩) (payloadJson m (resolveTags t))] := by
    rw [take_succ_of_lt eps k hk, List.map_append]
    rfl
  rw [htake]
  simp [save_memory_with, save_memory_raw, hpre]

/-- A run in which every listed attempt fails normally: full
characterization of the result. -/
lemma save_memory_exhausted_run (eps : List String) (env : Nat → PostResult)
    (m : String) (t : Option (List String))
    (hb : ∀ j, j < eps.length → failsNormally (env j) = true) :
    save_memory_with eps env m t =
      (false, eps.map (fun e => mkRequest e (payloadJson m (resolveTags t))),
       allFailOut env eps 0 ++ [OutLine.failedAll]) := by
  have hpre := tryEndpoints_fail_through env (payloadJson m (resolveTags t))
    eps.length eps 0 (Nat.le_refl _) (fun j hj => by simpa using hb j hj)
  simp only [List.drop_length, List.take_length, tryEndpoints] at hpre
  simp [save_memory_with, save_memory_raw, hpre]

lemma allFailOut_countP (env : Nat → PostResult) :
    ∀ (eps : List String) (i : Nat),
      (allFailOut env eps i).countP isErrorRecord =
        (attemptOutcomes env eps i).countP isReqExc := by
  intro eps
  induction eps with
  | nil => intro i; rfl
  | cons e rest ih =>
    intro i
    cases henv : env i <;>
      simp [allFailOut, attemptOutcomes, henv, List.countP_cons,
        List.countP_append, isErrorRecord, isReqExc, ih]

lemma tryEndpoints_request_mem (env : Nat → PostResult) (body : Json) :
    ∀ (eps : List String) (i : Nat) (r : Request),
      r ∈ (tryEndpoints env body eps i).2.1 →
      ∃ e, e ∈ eps ∧ r = mkRequest e body := by
  intro eps
  induction eps with
  | nil =>
    intro i r h
    simp [tryEndpoints] at h
  | cons e rest ih =>
    intro i r h
    cases henv : env i with
    | resp status b =>
      by_cases hs : status = 200
      · simp [tryEndpoints, henv, hs] at h
        exact ⟨e, List.mem_cons_self e rest, h⟩
      · simp [tryEndpoints, henv, hs] at h
        rcases h with h | h
        · exact ⟨e, List.mem_cons_self e rest, h⟩
        · rcases ih (i+1) r h with ⟨x, hx, hr⟩
          exact ⟨x, List.mem_cons_of_mem e hx, hr⟩
    | reqExc msg =>
      simp [tryEndpoints, henv] at h
      rcases h with h | h
      · exact ⟨e, List.mem_cons_self e rest, h⟩
      · rcases ih (i+1) r h with ⟨x, hx, hr⟩
        exact ⟨x, List.mem_cons_of_mem e hx, hr⟩
    | exc msg =>
      simp [tryEndpoints, henv] at h
      exact ⟨e, List.mem_cons_self e rest, h⟩

lemma tryEndpoints_requests_ne_nil (env : Nat → PostResult) (body : Json)
    (e : String) (rest : List String) (i : Nat) :
    (tryEndpoints env body (e :: rest) i).2.1 ≠ [] := by
  cases henv : env i with
  | resp status b =>
    by_cases hs : status = 200 <;> simp [tryEndpoints, henv, hs]
  | reqExc msg => simp [tryEndpoints, henv]
  | exc msg => simp [tryEndpoints, henv]

lemma requestUrls_append (a b : List Request) :
    requestUrls (a ++ b) = requestUrls a ++ requestUrls b := by
  simp [requestUrls]

lemma save_memory_with_requests (eps : List String) (env : Nat → PostResult)
    (m : String) (t : Option (List String)) :
    (save_memory_with eps env m t).2.1 =
      (tryEndpoints env (payloadJson m (resolveTags t)) eps 0).2.1 := by
  rcases h : tryEndpoints env (payloadJson m (resolveTags t)) eps 0 with ⟨r, reqs, out⟩
  cases r <;> simp [save_memory_with, save_memory_raw, h]

lemma decodeStrings_map_str (xs : List String) :
    decodeStrings (xs.map Json.str) = some xs := by
  induction xs with
  | nil => rfl
  | cons s rest ih => simp [decodeStrings, ih]

/-- C1: if the first attempt with a success status (status code 200) is at
position `k` (0-indexed here; the claim's 1-indexed position is `k+1`) and
every earlier attempt fails as an endpoint can (non-200 response or request
exception), then `save_memory` issues requests to exactly the first `k+1`
listed endpoints, in order, to none of the later ones, and returns `True`. -/
theorem save_memory_first_success (eps : List String) (env : Nat → PostResult)
    (m : String) (t : Option (List String)) (k : Nat) (hk : k < eps.length)
    (hs : isSuccess (env k) = true)
    (hb : ∀ j, j < k → failsNormally (env j) = true) :
    (save_memory_with eps env m t).1 = true ∧
    requestUrls (save_memory_with eps env m t).2.1 = eps.take (k+1) := by
  obtain ⟨rb, hr⟩ : ∃ rb, env k = PostResult.resp 200 rb := by
    cases henv : env k with
    | resp status b =>
      rw [henv] at hs
      by_cases h2 : status = 200
      · exact ⟨b, by simp [henv, h2]⟩
      · simp [isSuccess, h2] at hs
    | reqExc msg => rw [henv] at hs; simp [isSuccess] at hs
    | exc msg => rw [henv] at hs; simp [isSuccess] at hs
  rw [save_memory_success_run eps env m t k hk hb rb hr]
  exact ⟨rfl, requestUrls_map _ _⟩

theorem save_memory_first_success_witness :
    (save_memory_with endpoints (fun _ => PostResult.resp 200 "ok") "memo" none).1 = true ∧
    requestUrls
        (save_memory_with endpoints (fun _ => PostResult.resp 200 "ok") "memo" none).2.1 =
      endpoints.take 1 :=
  save_memory_first_success endpoints (fun _ => PostResult.resp 200 "ok") "memo" none 0
    (by decide) rfl (fun j hj => absurd hj (Nat.not_lt_zero j))

/-- C2: if every listed attempt fails as an endpoint can (non-200 response
or request exception), `save_memory` returns `False` and the request trace
is exactly the endpoint list: all `N` endpoints attempted once each, in
listed order. -/
theorem save_memory_all_fail (eps : List String) (env : Nat → PostResult)
    (m : String) (t : Option (List String))
    (hb : ∀ j, j < eps.length → failsNormally (env j) = true) :
    (save_memory_with eps env m t).1 = false ∧
    requestUrls (save_memory_with eps env m t).2.1 = eps := by
  rw [save_memory_exhausted_run eps env m t hb]
  exact ⟨rfl, requestUrls_map _ _⟩

theorem save_memory_all_fail_witness :
    (save_memory_with endpoints (fun _ => PostResult.reqExc "refused") "memo" none).1 = false ∧
    requestUrls
        (save_memory_with endpoints (fun _ => PostResult.reqExc "refused") "memo" none).2.1 =
      endpoints :=
  save_memory_all_fail endpoints (fun _ => PostResult.reqExc "refused") "memo" none
    (fun _ _ => rfl)

/-- C3 counterexample: status 201 is in the conventional success class, yet
a run in which every endpoint answers 201 is not treated as a success —
`save_memory` returns `False`.  The code tests `status_code == 200` exactly,
not membership in the 2xx class. -/
theorem ok_class_not_success_counterexample :
    specOkClass 201 = true ∧
    (save_memory (fun _ => PostResult.resp 201 "Created") "memo" none).1 = false := by
  exact ⟨rfl, rfl⟩

/-- C3 (amended): an attempt whose request completes is treated as overall
success — the prober stops after exactly the endpoints tried so far and
returns `True`, surfacing the endpoint used and the raw response body on
standard output — if and only if the response status equals 200 exactly
(not the whole success class). -/
theorem save_memory_success_iff_200 (eps : List String) (env : Nat → PostResult)
    (m : String) (t : Option (List String)) (k : Nat) (s : Nat) (rb : String)
    (hk : k < eps.length)
    (hb : ∀ j, j < k → failsNormally (env j) = true)
    (hr : env k = PostResult.resp s rb) :
    ((save_memory_with eps env m t).1 = true ∧
        requestUrls (save_memory_with eps env m t).2.1 = eps.take (k+1)) ↔
      (s = 200 ∧
        OutLine.savedVia (eps.get ⟨k, hk⟩) ∈ (save_memory_with eps env m t).2.2 ∧
        OutLine.responseBody rb ∈ (save_memory_with eps env m t).2.2) := by
  constructor
  · rintro ⟨h1, h2⟩
    by_cases hs : s = 200
    · subst hs
      have hrun := save_memory_success_run eps env m t k hk hb rb hr
      rw [hrun]
      exact ⟨rfl, by simp, by simp⟩
    · exfalso
      have hb' : ∀ j, j < k + 1 → failsNormally (env j) = true := by
        intro j hj
        rcases Nat.lt_succ_iff_lt_or_eq.mp hj with h | h
        · exact hb j h
        · subst h
          rw [hr]
          simp [failsNormally, hs]
      have hpre := tryEndpoints_fail_through env (payloadJson m (resolveTags t))
        (k+1) eps 0 (Nat.succ_le_of_lt hk) (fun j hj => by simpa using hb' j hj)
      by_cases hlen : k + 1 < eps.length
      · obtain ⟨e, es, hdrop⟩ : ∃ e es, eps.drop (k+1) = e :: es := by
          cases hd : eps.drop (k+1) with
          | nil =>
            have := List.drop_eq_nil_iff.mp hd
            omega
          | cons e es => exact ⟨e, es, rfl⟩
        have hne := tryEndpoints_requests_ne_nil env (payloadJson m (resolveTags t))
          e es (0 + (k+1))
        rw [hdrop] at hpre
        have hreq : (save_memory_with eps env m t).2.1 =
            (eps.take (k+1)).map (fun x => mkRequest x (payloadJson m (resolveTags t))) ++
              (tryEndpoints env (payloadJson m (resolveTags t)) (e :: es) (0 + (k+1))).2.1 := by
          rw [save_memory_with_requests, hpre]
        rw [hreq, requestUrls_append, requestUrls_map] at h2
        have hlen2 := congrArg List.length h2
        rw [List.length_append] at hlen2
        have hzero : requestUrls (tryEndpoints env (payloadJson m (resolveTags t))
            (e :: es) (0 + (k+1))).2.1 = [] :=
          List.length_eq_zero.mp (by omega)
        rw [requestUrls] at hzero
        exact hne (List.map_eq_nil_iff.mp hzero)
      · have hdrop : eps.drop (k+1) = [] :=
          List.drop_eq_nil_iff.mpr (by omega)
        rw [hdrop] at hpre
        rw [show tryEndpoints env (payloadJson m (resolveTags t)) [] (0 + (k+1)) =
          (LoopResult.exhausted, [], []) from rfl] at hpre
        simp [save_memory_with, save_memory_raw, hpre] at h1
  · rintro ⟨hs, -, -⟩
    subst hs
    have hrun := save_memory_success_run eps env m t k hk hb rb hr
    rw [hrun]
    exact ⟨rfl, requestUrls_map _ _⟩

theorem save_memory_success_iff_200_witness :
    (save_memory_with endpoints
        (fun i => if i = 0 then PostResult.reqExc "refused" else PostResult.resp 200 "ok")
        "memo" none).1 = true ∧
      requestUrls (save_memory_with endpoints
        (fun i => if i = 0 then PostResult.reqExc "refused" else PostResult.resp 200 "ok")
        "memo" none).2.1 = endpoints.take 2 :=
  (save_memory_success_iff_200 endpoints
      (fun i => if i = 0 then PostResult.reqExc "refused" else PostResult.resp 200 "ok")
      "memo" none 1 200 "ok" (by decide)
      (fun j hj => by
        have hj0 : j = 0 := by omega
        subst hj0
        rfl)
      rfl).mpr
    ⟨rfl, by decide, by decide⟩

/-- C4 counterexample: in a run where all six endpoints fail by answering
status 404 (a non-success status), `save_memory` returns `False` after six
attempts, but the output contains no per-endpoint failure record at all —
a non-success status is skipped silently; only request exceptions print an
`Error with` line.  So the output does not list each of the N failures. -/
theorem silent_status_failure_counterexample :
    (save_memory (fun _ => PostResult.resp 404 "Not Found") "memo" none).1 = false ∧
    (save_memory (fun _ => PostResult.resp 404 "Not Found") "memo" none).2.1.length = 6 ∧
    ((save_memory (fun _ => PostResult.resp 404 "Not Found") "memo" none).2.2).countP
      isErrorRecord = 0 :=
  ⟨rfl, rfl, rfl⟩

/-- C4 (amended): every attempt that fails with a request exception
(network error, timeout) is recorded on standard output and the loop
proceeds; an attempt that completes with a non-success status proceeds to
the next endpoint silently, with no per-failure record.  In a run where all
`N` endpoints fail, `save_memory` returns `False`, attempts all `N`
endpoints in listed order, and the number of failure records in the output
equals the number of attempts that raised a request exception. -/
theorem save_memory_failure_records (eps : List String) (env : Nat → PostResult)
    (m : String) (t : Option (List String))
    (hb : ∀ j, j < eps.length → failsNormally (env j) = true) :
    (save_memory_with eps env m t).1 = false ∧
    requestUrls (save_memory_with eps env m t).2.1 = eps ∧
    ((save_memory_with eps env m t).2.2).countP isErrorRecord =
      (attemptOutcomes env eps 0).countP isReqExc := by
  rw [save_memory_exhausted_run eps env m t hb]
  refine ⟨rfl, requestUrls_map _ _, ?_⟩
  rw [List.countP_append, allFailOut_countP]
  simp [isErrorRecord, List.countP_cons]

theorem save_memory_failure_records_witness :
    (save_memory_with endpoints
        (fun i => if i % 2 = 0 then PostResult.reqExc "refused"
          else PostResult.resp 503 "unavailable") "memo" none).1 = false ∧
    requestUrls ((save_memory_with endpoints
        (fun i => if i % 2 = 0 then PostResult.reqExc "refused"
          else PostResult.resp 503 "unavailable") "memo" none).2.1) = endpoints ∧
    (((save_memory_with endpoints
        (fun i => if i % 2 = 0 then PostResult.reqExc "refused"
          else PostResult.resp 503 "unavailable") "memo" none).2.2)).countP isErrorRecord =
      (attemptOutcomes
        (fun i => if i % 2 = 0 then PostResult.reqExc "refused"
          else PostResult.resp 503 "unavailable") endpoints 0).countP isReqExc :=
  save_memory_failure_records endpoints
    (fun i => if i % 2 = 0 then PostResult.reqExc "refused"
      else PostResult.resp 503 "unavailable") "memo" none
    (fun j _ => by by_cases h : j % 2 = 0 <;> simp [h, failsNormally])

/-- C5: deserializing the serialized request body (the JSON document with
fields `memory` and `tags`) reproduces the original memory string and tags
sequence exactly, for every memory string and tags sequence. -/
theorem payload_roundtrip (m : String) (tags : List String) :
    decodePayload (payloadJson m tags) = some (m, tags) := by
  simp [decodePayload, payloadJson, Json.lookupField, List.lookup,
    decodeStrings_map_str]

/-- C6: whenever an exception that the inner handler does not catch would
propagate out of the probing loop, the outer catch-all absorbs it:
`save_memory` still returns normally with the failure indicator `False`
(and the `Error:` diagnostic appended to the output).  `save_memory_with`
is a total function into `Bool × _`: its type has no exceptional outcome,
so no exception reaches the process boundary. -/
theorem save_memory_absorbs_exceptions (eps : List String) (env : Nat → PostResult)
    (m : String) (t : Option (List String)) (msg : String)
    (reqs : List Request) (out : List OutLine)
    (h : save_memory_raw eps env m t = Except.error (msg, reqs, out)) :
    save_memory_with eps env m t = (false, reqs, out ++ [OutLine.outerError msg]) := by
  simp [save_memory_with, h]

theorem save_memory_absorbs_exceptions_witness :
    save_memory_with endpoints (fun _ => PostResult.exc "boom") "memo" none =
      (false,
       [mkRequest "http://localhost:8050/api/save_memory" (payloadJson "memo" [])],
       [OutLine.trying "http://localhost:8050/api/save_memory",
        OutLine.outerError "boom"]) :=
  save_memory_absorbs_exceptions endpoints (fun _ => PostResult.exc "boom") "memo" none
    "boom" [mkRequest "http://localhost:8050/api/save_memory" (payloadJson "memo" [])]
    [OutLine.trying "http://localhost:8050/api/save_memory"] rfl

/-- C7: on an empty endpoint list the prober returns `False` immediately,
with zero requests issued (the only output is the final diagnostic). -/
theorem save_memory_empty_endpoints (env : Nat → PostResult) (m : String)
    (t : Option (List String)) :
    save_memory_with [] env m t = (false, [], [OutLine.failedAll]) := rfl

/-- C8: the hardcoded candidate list is exactly the six loopback URLs
combining ports 8050 and 8051 with the three path forms, in the source's
fixed order, and every request `save_memory` issues is an HTTP POST with a
per-request timeout of 5 to one of those six URLs. -/
theorem endpoints_spec :
    endpoints = comboEndpoints ∧
    endpoints.length = 6 ∧
    ∀ (env : Nat → PostResult) (m : String) (t : Option (List String)) (r : Request),
      r ∈ (save_memory env m t).2.1 →
      r.method = "POST" ∧ r.timeout = 5 ∧ r.url ∈ endpoints := by
  refine ⟨by decide, rfl, ?_⟩
  intro env m t r hr
  rw [save_memory, save_memory_with_requests] at hr
  rcases tryEndpoints_request_mem env (payloadJson m (resolveTags t)) endpoints 0 r hr
    with ⟨e, he, rfl⟩
  exact ⟨rfl, rfl, he⟩

theorem endpoints_spec_witness :
    (mkRequest "http://localhost:8050/api/save_memory" (payloadJson "memo" [])).method =
      "POST" ∧
    (mkRequest "http://localhost:8050/api/save_memory" (payloadJson "memo" [])).timeout = 5 ∧
    (mkRequest "http://localhost:8050/api/save_memory" (payloadJson "memo" [])).url ∈
      endpoints :=
  endpoints_spec.2.2 (fun _ => PostResult.resp 200 "ok") "memo" none
    (mkRequest "http://localhost:8050/api/save_memory" (payloadJson "memo" []))
    (List.mem_singleton_self _)

/-- C9: when `tags` is omitted or `None`, the payload's `tags` field is the
empty list; in every case the serialized body's `tags` field is a JSON
array (never a null). -/
theorem tags_field_always_array (m : String) (t : Option (List String)) :
    Json.lookupField (payloadJson m (resolveTags t)) "tags" =
      some (Json.arr ((resolveTags t).map Json.str)) ∧
    resolveTags none = [] ∧
    Json.arr ((resolveTags t).map Json.str) ≠ Json.null :=
  ⟨rfl, rfl, fun h => Json.noConfusion h⟩

/-- C10: `save_memory` mutates neither of its arguments and modifies no
program state other than the standard-output channel: on the visible state,
the memory text and the tags argument are unchanged and the only change is
lines appended to stdout. -/
theorem save_memory_frame (env : Nat → PostResult) (s : ProgState) :
    (save_memory_st env s).1.memoryText = s.memoryText ∧
    (save_memory_st env s).1.tagsArg = s.tagsArg ∧
    (save_memory_st env s).1.stdout =
      s.stdout ++ (save_memory env s.memoryText s.tagsArg).2.2 ∧
    (save_memory_st env s).2 = (save_memory env s.memoryText s.tagsArg).1 :=
  ⟨rfl, rfl, rfl, rfl⟩

end SaveMemory
